import Mathlib

set_option autoImplicit false

/-!
Shallow embedding of the in-memory record management engine of
`src/public/js/vendors-core.js`: the search/sort strategy layer, the
reactive application state (`VendorAppState`), the CRUD data store
(`VendorDataStore`) with its observer fan-out, and the command-based
undo/redo history (`CommandHistory`), together with theorems settling the
specification's claims about them.
-/

namespace VendorsCore

/-- A JavaScript scalar value as held in a vendor record field.  Numbers
are modelled as integers (the records hold identifiers, quantities and
date strings); `undefined` models `undefined`, the result of reading an
absent field. -/
inductive JSValue where
  | null
  | undefined
  | num (n : Int)
  | str (s : String)
  | bool (b : Bool)
deriving DecidableEq, Repr

/-- JavaScript truthiness: `null`, `undefined`, `0`, `""` and `false` are
falsy, everything else is truthy. -/
def JSValue.falsy : JSValue → Bool
  | .null => true
  | .undefined => true
  | .num n => n == 0
  | .str s => s == ""
  | .bool b => !b

/-- The defaulting idiom `v || w` used throughout the source. -/
def jsOr (v w : JSValue) : JSValue := if v.falsy then w else v

/-- `String(v)`. -/
def JSValue.toJSString : JSValue → String
  | .null => "null"
  | .undefined => "undefined"
  | .num n => toString n
  | .str s => s
  | .bool b => if b then "true" else "false"

/-- Modelled from the host: `Number(v)`, restricted to the value shapes the
records use.  `none` models `NaN`; integer-literal strings (optionally
signed) parse, the empty string coerces to 0, other strings are `NaN`. -/
def jsToNumber : JSValue → Option Int
  | .null => some 0
  | .undefined => none
  | .num n => some n
  | .bool b => some (if b then 1 else 0)
  | .str s => if s = "" then some 0 else s.toInt?

/-- Number of proleptic-Gregorian leap years in `[1, y)`. -/
def leapYearsBefore (y : Int) : Int :=
  (y - 1).fdiv 4 - (y - 1).fdiv 100 + (y - 1).fdiv 400

/-- Milliseconds from the Unix epoch to 00:00 UTC on January 1 of year
`y`. -/
def yearStartMillis (y : Int) : Int :=
  (365 * (y - 1970) + (leapYearsBefore y - leapYearsBefore 1970)) * 86400000

/-- Modelled from the host: `new Date(s)` string parsing, restricted to the
ISO-8601 year-only form `"YYYY"` (January 1 of that year, UTC); every other
string shape is modelled as unparsable (`Invalid Date`, i.e. a `NaN`
timestamp, here `none`). -/
def jsDateParse (s : String) : Option Int :=
  if s.length = 4 ∧ s.data.all Char.isDigit then
    some (yearStartMillis ((s.toNat?.getD 0 : Nat) : Int))
  else
    none

/-- `new Date(v).getTime()` for the value shapes the date sorter feeds it:
a number is taken as a millisecond timestamp, a string goes through date
parsing, booleans coerce to 1/0, `null` to 0, and `undefined` gives `NaN`.
`none` models a `NaN` timestamp. -/
def jsDateGetTime : JSValue → Option Int
  | .num n => some n
  | .str s => jsDateParse s
  | .bool b => some (if b then 1 else 0)
  | .null => some 0
  | .undefined => none

/-- Modelled from the host: `String.prototype.toLowerCase`, restricted to
ASCII case mapping. -/
def jsCharLower (c : Char) : Char :=
  if c.toNat ≥ 65 ∧ c.toNat ≤ 90 then Char.ofNat (c.toNat + 32) else c

/-- `s.toLowerCase()`. -/
def jsToLower (s : String) : String := ⟨s.data.map jsCharLower⟩

/-- Modelled from the host: `String.prototype.localeCompare` on the
already-lowercased strings the alphabetic sorter feeds it, as code-point
(lexicographic) order with sign in `{-1, 0, 1}`. -/
def jsLocaleCompare (a b : String) : Int :=
  if a.data < b.data then -1 else if a = b then 0 else 1

/-- A vendor record: a JavaScript object, i.e. a finite field-name-to-value
map, modelled as an association list in which the first binding for a
field wins on lookup. -/
abbrev Record := List (String × JSValue)

/-- `r[f]`: reading an absent field yields `undefined`. -/
def Record.get (r : Record) (f : String) : JSValue :=
  match r.find? (fun p => decide (p.1 = f)) with
  | some p => p.2
  | none => .undefined

/-- The field names present on a record. -/
def Record.fields (r : Record) : List String := r.map (fun p => p.1)

/-- The object spread `{ ...r, ...u }` (fields of `u` win), modelled up to
field lookup: the bindings of `u` are placed in front so `Record.get`
finds them first. -/
def Record.spread (r u : Record) : Record := u ++ r

/-- No two records of `l` share a value of the identity key `k`. -/
def UniqueKeys (k : String) (l : List Record) : Prop :=
  l.Pairwise (fun a b => Record.get a k ≠ Record.get b k)

instance (k : String) (l : List Record) : Decidable (UniqueKeys k l) :=
  List.instDecidablePairwise l

/-- Two records agree on every field value (absent fields reading as
`undefined`). -/
def RecordEquiv (r₁ r₂ : Record) : Prop := ∀ f, Record.get r₁ f = Record.get r₂ f

/-!
## `VendorDataStore` (CRUD data store)

Mutation emitted notifications are modelled as the list of event names
fired by the operation (their payloads are the returned records).  The
`columns` field and the observer set of the source class are UI metadata
respectively fan-out state; observer delivery itself is modelled by
`notifyStoreObservers` below.
-/

structure VendorDataStore where
  data : List Record
  primaryKey : String
deriving DecidableEq

/-- The store as constructed: no data, identity key `'id'`. -/
def VendorDataStore.init : VendorDataStore := ⟨[], "id"⟩

/-- The `findIndex`-then-assign step of `updateVendor`, expressed
structurally: replace the first record whose identity key equals `id` by
`{ ...record, ...updates }`, returning the merged record when found. -/
def updateData (k : String) (id : JSValue) (u : Record) :
    List Record → Option Record × List Record
  | [] => (none, [])
  | r :: rest =>
    if Record.get r k = id then
      (some (Record.spread r u), Record.spread r u :: rest)
    else
      let res := updateData k id u rest
      (res.1, r :: res.2)

/-- The `findIndex`-then-`splice(index, 1)` step of `deleteVendor`:
remove and return the first record whose identity key equals `id`. -/
def deleteData (k : String) (id : JSValue) :
    List Record → Option Record × List Record
  | [] => (none, [])
  | r :: rest =>
    if Record.get r k = id then
      (some r, rest)
    else
      let res := deleteData k id rest
      (res.1, r :: res.2)

/-- `setData`: replace the whole collection, notify `dataLoaded`. -/
def VendorDataStore.setData (st : VendorDataStore) (d : List Record) :
    VendorDataStore × List String :=
  ({ st with data := d }, ["dataLoaded"])

/-- `addVendor`: push the vendor, notify `vendorAdded`, return it. -/
def VendorDataStore.addVendor (st : VendorDataStore) (v : Record) :
    VendorDataStore × Record × List String :=
  ({ st with data := st.data ++ [v] }, v, ["vendorAdded"])

/-- `updateVendor`: merge `updates` into the first record matching `id` and
notify `vendorUpdated` with the merged record; when no record matches,
return null, change nothing and fire nothing. -/
def VendorDataStore.updateVendor (st : VendorDataStore) (id : JSValue) (u : Record) :
    VendorDataStore × Option Record × List String :=
  let res := updateData st.primaryKey id u st.data
  match res.1 with
  | some merged => ({ st with data := res.2 }, some merged, ["vendorUpdated"])
  | none => (st, none, [])

/-- `deleteVendor`: remove and return the first record matching `id`,
notifying `vendorDeleted`; when no record matches, return null, change
nothing and fire nothing. -/
def VendorDataStore.deleteVendor (st : VendorDataStore) (id : JSValue) :
    VendorDataStore × Option Record × List String :=
  let res := deleteData st.primaryKey id st.data
  match res.1 with
  | some deleted => ({ st with data := res.2 }, some deleted, ["vendorDeleted"])
  | none => (st, none, [])

/-- `getVendor`: `data.find(v => v[primaryKey] === id)` (undefined when
absent). -/
def VendorDataStore.getVendor (st : VendorDataStore) (id : JSValue) : Option Record :=
  st.data.find? (fun v => decide (Record.get v st.primaryKey = id))

/-- Pointwise equivalence of optional lookup results. -/
def OptionRecordEquiv : Option Record → Option Record → Prop
  | some r₁, some r₂ => RecordEquiv r₁ r₂
  | none, none => True
  | _, _ => False

/-- Store states equal by identity-key set and per-record field values:
looking any identity key up succeeds in one store exactly when it does in
the other, and then yields records with the same field values. -/
def StoreEquiv (s₁ s₂ : VendorDataStore) : Prop :=
  s₁.primaryKey = s₂.primaryKey ∧
  ∀ id : JSValue, OptionRecordEquiv (s₁.getVendor id) (s₂.getVendor id)

/-!
## Observer fan-out (`VendorAppState.notify` / `VendorDataStore.notifyObservers`)
-/

/-- An observer callback: receives `(eventName, payload)` and either
returns normally or throws, modelled as `Except.error` carrying the
exception message. -/
def Observer (π : Type) := String → π → Except String Unit

/-- The error of a thrown callback, if any. -/
def errOf : Except String Unit → Option String
  | .ok _ => none
  | .error m => some m

/-- `VendorAppState.notify`: a `forEach` over the observers wrapping each
call in `try { observer(event, data) } catch (error) { console.error(...) }`.
The result records each observer's outcome in turn (`none` = returned
normally, `some msg` = exception caught and logged). -/
def notifyView {π : Type} (obs : List (Observer π)) (event : String) (payload : π) :
    List (Option String) :=
  match obs with
  | [] => []
  | o :: rest => errOf (o event payload) :: notifyView rest event payload

/-- `VendorDataStore.notifyObservers`: a bare
`this.observers.forEach(observer => observer(event, data))`.  There is no
try/catch, so an observer exception propagates out of the loop and the
remaining observers are not invoked. -/
def notifyStoreObservers {π : Type} (obs : List (Observer π)) (event : String) (payload : π) :
    Except String Unit :=
  match obs with
  | [] => .ok ()
  | o :: rest =>
    match o event payload with
    | .ok _ => notifyStoreObservers rest event payload
    | .error m => .error m

/-!
## Commands and history
-/

/-- The three command variants; the constructor arguments are the fields
captured at construction time (`vendor`, resp. `id`/`updates`, resp.
`id`). -/
inductive Command where
  | add (vendor : Record)
  | update (id : JSValue) (updates : Record)
  | delete (id : JSValue)
deriving DecidableEq

/-- `execute()`: mutate the store and capture the command's instance state
(`previousState` for update, captured before the mutation; `deletedVendor`
for delete; add captures nothing beyond its constructor arguments). -/
def Command.execute : Command → VendorDataStore → VendorDataStore × Option Record
  | .add v, st => ((st.addVendor v).1, none)
  | .update id u, st =>
    let prev := st.getVendor id
    ((st.updateVendor id u).1, prev)
  | .delete id, st =>
    let res := st.deleteVendor id
    (res.1, res.2.1)

/-- `undo()`, given the instance state captured by the last `execute()`:
add deletes by the vendor's identity key; update re-applies the captured
previous state as an update (a no-op when nothing was captured); delete
re-adds the captured record (a no-op when nothing was deleted). -/
def Command.undo : Command → Option Record → VendorDataStore → VendorDataStore
  | .add v, _, st => (st.deleteVendor (Record.get v st.primaryKey)).1
  | .update id _, cap, st =>
    match cap with
    | some prev => (st.updateVendor id prev).1
    | none => st
  | .delete _, cap, st =>
    match cap with
    | some d => (st.addVendor d).1
    | none => st

/-- Execute a freshly constructed command against the store, then undo
it. -/
def Command.execThenUndo (c : Command) (st : VendorDataStore) : VendorDataStore :=
  let r := c.execute st
  c.undo r.2 r.1

/-- The undo/redo history.  Stacks are modelled with the top at the head;
each entry pairs the command with its captured instance state, which
`execute()` overwrites on (re-)execution. -/
structure CommandHistory where
  undoStack : List (Command × Option Record)
  redoStack : List (Command × Option Record)
deriving DecidableEq

/-- `executeCommand`: run `execute()`, push the command onto the undo
stack, clear the redo stack. -/
def CommandHistory.executeCommand (h : CommandHistory) (c : Command)
    (st : VendorDataStore) : CommandHistory × VendorDataStore :=
  let r := c.execute st
  (⟨(c, r.2) :: h.undoStack, []⟩, r.1)

/-- `undo()`: pop the undo stack (no-op when empty), run the command's
`undo()`, push it onto the redo stack. -/
def CommandHistory.undoLast (h : CommandHistory) (st : VendorDataStore) :
    CommandHistory × VendorDataStore :=
  match h.undoStack with
  | [] => (h, st)
  | c :: rest => (⟨rest, c :: h.redoStack⟩, c.1.undo c.2 st)

/-- `redo()`: pop the redo stack (no-op when empty), re-run the command's
`execute()`, push it onto the undo stack. -/
def CommandHistory.redoLast (h : CommandHistory) (st : VendorDataStore) :
    CommandHistory × VendorDataStore :=
  match h.redoStack with
  | [] => (h, st)
  | c :: rest =>
    let r := c.1.execute st
    (⟨(c.1, r.2) :: h.undoStack, rest⟩, r.1)

/-!
## Sort strategies

The host's `Array.prototype.sort` (called on a copy, `[...data].sort(cmp)`)
is modelled as the stable top-down merge sort that the language
specification mandates for consistent comparators: the left element is
kept whenever the comparator does not return a value `> 0` (a `NaN`
comparator value, modelled as `none`, compares false and so also keeps the
left element).  For inconsistent comparators the host order is
implementation-defined and this model realises one compliant choice.
`List.mergeSort` recurses by well-founded recursion, which the kernel
cannot evaluate, so the executable model is a fuel-based structural clone
proved equal to it below.
-/

/-- Keep-left test of the modelled engine merge: `cmp(a,b) > 0` is the only
outcome that puts `b` first; `NaN` (`none`) compares false. -/
def jsCmpLe (c : Option Int) : Bool :=
  match c with
  | some v => decide (v ≤ 0)
  | none => true

/-- Structural (fuel-based) clone of `List.merge`. -/
def mergeFuel {α : Type} (le : α → α → Bool) : Nat → List α → List α → List α
  | 0, xs, ys => xs ++ ys
  | _ + 1, [], ys => ys
  | _ + 1, x :: xs, [] => x :: xs
  | f + 1, x :: xs, y :: ys =>
    if le x y then x :: mergeFuel le f xs (y :: ys)
    else y :: mergeFuel le f (x :: xs) ys

/-- Structural (fuel-based) clone of `List.mergeSort`. -/
def mergeSortFuel {α : Type} (le : α → α → Bool) : Nat → List α → List α
  | 0, l => l
  | _ + 1, [] => []
  | _ + 1, [a] => [a]
  | f + 1, a :: b :: xs =>
    let lr := List.splitInTwo ⟨a :: b :: xs, rfl⟩
    let l₁ := mergeSortFuel le f lr.1.1
    let l₂ := mergeSortFuel le f lr.2.1
    mergeFuel le (l₁.length + l₂.length) l₁ l₂

/-- The modelled `[...data].sort(cmp)`. -/
def jsSort {α : Type} (cmp : α → α → Option Int) (l : List α) : List α :=
  mergeSortFuel (fun a b => jsCmpLe (cmp a b)) l.length l

/-- `direction === 'asc' ? comparison : -comparison` (`NaN` stays `NaN`). -/
def applyDirection (direction : String) (c : Option Int) : Option Int :=
  if direction = "asc" then c else c.map (fun v => -v)

/-- The sort key of `AlphabeticSortStrategy`:
`String(a[column] || '').toLowerCase()`. -/
def alphaKey (r : Record) (column : String) : String :=
  jsToLower (JSValue.toJSString (jsOr (Record.get r column) (.str "")))

/-- The comparator passed to `sort` by `AlphabeticSortStrategy`. -/
def alphaCompare (column direction : String) (a b : Record) : Option Int :=
  applyDirection direction (some (jsLocaleCompare (alphaKey a column) (alphaKey b column)))

/-- `AlphabeticSortStrategy.sort`. -/
def AlphabeticSortStrategy.sort (data : List Record) (column direction : String) : List Record :=
  jsSort (alphaCompare column direction) data

/-- The sort key of `NumericSortStrategy`: `Number(a[column]) || 0`. -/
def numKey (r : Record) (column : String) : Int :=
  (jsToNumber (Record.get r column)).getD 0

/-- The comparator passed to `sort` by `NumericSortStrategy`. -/
def numCompare (column direction : String) (a b : Record) : Option Int :=
  applyDirection direction (some (numKey a column - numKey b column))

/-- `NumericSortStrategy.sort`. -/
def NumericSortStrategy.sort (data : List Record) (column direction : String) : List Record :=
  jsSort (numCompare column direction) data

/-- The sort key of `DateSortStrategy`:
`new Date(a[column] || 0).getTime()` (`none` models `NaN`). -/
def dateKey (r : Record) (column : String) : Option Int :=
  jsDateGetTime (jsOr (Record.get r column) (.num 0))

/-- The comparator passed to `sort` by `DateSortStrategy`; arithmetic on a
`NaN` timestamp is `NaN`. -/
def dateCompare (column direction : String) (a b : Record) : Option Int :=
  applyDirection direction
    (match dateKey a column, dateKey b column with
     | some x, some y => some (x - y)
     | _, _ => none)

/-- `DateSortStrategy.sort`. -/
def DateSortStrategy.sort (data : List Record) (column direction : String) : List Record :=
  jsSort (dateCompare column direction) data

/-!
## Search strategies
-/

/-- JS `String.prototype.includes`, on the underlying character lists. -/
def listContainsSeq {α : Type} [BEq α] (t : List α) : List α → Bool
  | [] => t.isEmpty
  | a :: rest => t.isPrefixOf (a :: rest) || listContainsSeq t rest

/-- `s.includes(t)`. -/
def jsIncludes (s t : String) : Bool := listContainsSeq t.data s.data

/-- `ExactSearchStrategy.match`: `String(value) === String(searchTerm)`. -/
def ExactSearchStrategy.matches (value : JSValue) (term : String) : Bool :=
  value.toJSString == term

/-- `PartialSearchStrategy.match`: case-insensitive substring
containment. -/
def PartialSearchStrategy.matches (value : JSValue) (term : String) : Bool :=
  jsIncludes (jsToLower value.toJSString) (jsToLower term)

/-- `CaseInsensitiveSearchStrategy.match`: case-insensitive equality. -/
def CaseInsensitiveSearchStrategy.matches (value : JSValue) (term : String) : Bool :=
  jsToLower value.toJSString == jsToLower term

/-!
## `VendorAppState` (reactive derived state)

The strategy slots are held as capability functions (the source's strategy
objects carry no state of their own).  The `columns` field, the observer
set and the singleton accessor are not needed by the properties below;
observer delivery is modelled by `notifyView`.
-/

structure VendorAppState where
  data : List Record
  filteredData : List Record
  sortColumn : Option String
  sortDirection : String
  searchFilters : List (String × String)
  searchStrategy : JSValue → String → Bool
  sortStrategy : List Record → String → String → List Record

/-- The filter loop body of `applyFiltersAndSort`: walk the active filters
in insertion order and reject the item at the first non-matching one. -/
def passesFilters (strategy : JSValue → String → Bool) :
    List (String × String) → Record → Bool
  | [], _ => true
  | (column, term) :: rest, item =>
    if !strategy (Record.get item column) term then false
    else passesFilters strategy rest item

/-- `applyFiltersAndSort`: filter the raw data by the conjunction of the
active filters, then, when a sort column is active (the source tests the
column's truthiness, so the empty string does not sort), sort the filtered
data with the active strategy. -/
def VendorAppState.applyFiltersAndSort (st : VendorAppState) : VendorAppState :=
  let filtered := st.data.filter (passesFilters st.searchStrategy st.searchFilters)
  let sorted :=
    match st.sortColumn with
    | some column =>
      if column = "" then filtered
      else st.sortStrategy filtered column st.sortDirection
    | none => filtered
  { st with filteredData := sorted }

/-- `setSortColumn`: selecting the current sort column toggles the
direction, selecting a new column resets it to ascending; then the view is
recomputed. -/
def VendorAppState.setSortColumn (st : VendorAppState) (column : String) : VendorAppState :=
  let st :=
    if st.sortColumn = some column then
      { st with sortDirection := if st.sortDirection = "asc" then "desc" else "asc" }
    else
      { st with sortColumn := some column, sortDirection := "asc" }
  st.applyFiltersAndSort

/-!
## Reachable store states
-/

/-- The four mutating store entry points, as reified operations. -/
inductive StoreOp where
  | setData (records : List Record)
  | addVendor (vendor : Record)
  | updateVendor (id : JSValue) (updates : Record)
  | deleteVendor (id : JSValue)

/-- Apply one operation to the store (discarding return value and
notifications). -/
def VendorDataStore.applyOp (st : VendorDataStore) : StoreOp → VendorDataStore
  | .setData rs => (st.setData rs).1
  | .addVendor v => (st.addVendor v).1
  | .updateVendor id u => (st.updateVendor id u).1
  | .deleteVendor id => (st.deleteVendor id).1

/-- Run a sequence of store operations. -/
def VendorDataStore.runOps (st : VendorDataStore) (ops : List StoreOp) : VendorDataStore :=
  ops.foldl VendorDataStore.applyOp st

/-- Safety conditions under which a single command round-trips (the
amended C1): an added vendor's identity key must be fresh; an update must
not introduce new fields on its target and must not change the
identity-key value; a delete is unconditional. -/
def SafeCommand (c : Command) (st : VendorDataStore) : Prop :=
  match c with
  | .add v => ∀ r ∈ st.data, Record.get r st.primaryKey ≠ Record.get v st.primaryKey
  | .update id u =>
    ∀ r, st.getVendor id = some r →
      (∀ f ∈ Record.fields u, f ∈ Record.fields r) ∧
      (st.primaryKey ∈ Record.fields u → Record.get u st.primaryKey = id)
  | .delete _ => True

/-- Safety condition on one store operation (the amended C4): `setData`
loads unique keys, `addVendor` inserts a fresh key, and `updateVendor`
leaves the identity key untouched, or equal to the id it looked up, or
fresh. -/
def SafeOp (st : VendorDataStore) : StoreOp → Prop
  | .setData rs => UniqueKeys st.primaryKey rs
  | .addVendor v => ∀ r ∈ st.data, Record.get r st.primaryKey ≠ Record.get v st.primaryKey
  | .updateVendor id u =>
    st.primaryKey ∉ Record.fields u ∨ Record.get u st.primaryKey = id ∨
      ∀ r ∈ st.data, Record.get r st.primaryKey ≠ Record.get u st.primaryKey
  | .deleteVendor _ => True

/-- Every operation of the trace is safe in the state where it runs. -/
def SafeTrace (st : VendorDataStore) : List StoreOp → Prop
  | [] => True
  | op :: rest => SafeOp st op ∧ SafeTrace (st.applyOp op) rest

instance (st : VendorDataStore) : (op : StoreOp) → Decidable (SafeOp st op)
  | .setData rs => inferInstanceAs (Decidable (UniqueKeys st.primaryKey rs))
  | .addVendor v =>
    inferInstanceAs
      (Decidable (∀ r ∈ st.data, Record.get r st.primaryKey ≠ Record.get v st.primaryKey))
  | .updateVendor id u =>
    inferInstanceAs
      (Decidable (st.primaryKey ∉ Record.fields u ∨ Record.get u st.primaryKey = id ∨
        ∀ r ∈ st.data, Record.get r st.primaryKey ≠ Record.get u st.primaryKey))
  | .deleteVendor _ => inferInstanceAs (Decidable True)

def safeTraceDecidable (st : VendorDataStore) :
    (ops : List StoreOp) → Decidable (SafeTrace st ops)
  | [] => .isTrue trivial
  | op :: rest =>
    haveI := safeTraceDecidable (st.applyOp op) rest
    inferInstanceAs (Decidable (SafeOp st op ∧ SafeTrace (st.applyOp op) rest))

instance (st : VendorDataStore) (ops : List StoreOp) : Decidable (SafeTrace st ops) :=
  safeTraceDecidable st ops

/-- Concrete records used by the witnesses (the spec's worked scenario
data). -/
def recCharlie : Record := [("id", JSValue.num 1), ("name", JSValue.str "Charlie"), ("v", JSValue.num 30)]

def recAlice : Record := [("id", JSValue.num 2), ("name", JSValue.str "Alice"), ("v", JSValue.num 10)]

def recBob : Record := [("id", JSValue.num 3), ("name", JSValue.str "Bob"), ("v", JSValue.num 20)]

/-- A concrete view state over the scenario records, with the source's
default strategies. -/
def scenarioState : VendorAppState :=
  { data := [recCharlie, recAlice, recBob]
    filteredData := []
    sortColumn := none
    sortDirection := "asc"
    searchFilters := []
    searchStrategy := PartialSearchStrategy.matches
    sortStrategy := AlphabeticSortStrategy.sort }

/-- A concrete view state with an active `category` filter. -/
def filterState : VendorAppState :=
  { data :=
      [[("id", JSValue.num 1), ("name", JSValue.str "Test Vendor"), ("category", JSValue.str "A")],
       [("id", JSValue.num 2), ("name", JSValue.str "Another Vendor"), ("category", JSValue.str "B")],
       [("id", JSValue.num 3), ("name", JSValue.str "Test Company"), ("category", JSValue.str "A")]]
    filteredData := []
    sortColumn := none
    sortDirection := "asc"
    searchFilters := [("category", "a")]
    searchStrategy := PartialSearchStrategy.matches
    sortStrategy := AlphabeticSortStrategy.sort }

/-- A concrete three-record store keyed by `id`. -/
def scenarioStore : VendorDataStore :=
  ⟨[recCharlie, recAlice, recBob], "id"⟩

/-- Input for the date-sorter stability counterexample: two records with
unparsable date values (`NaN` timestamps) make the comparator
inconsistent, and the two timestamp-5 records come out reordered. -/
def stabCexRecords : List Record :=
  [[("d", JSValue.num 10), ("name", JSValue.str "x")],
   [("d", JSValue.str "foo"), ("name", JSValue.str "n")],
   [("d", JSValue.str "bar"), ("name", JSValue.str "w")],
   [("d", JSValue.num 5), ("name", JSValue.str "a")],
   [("d", JSValue.num 5), ("name", JSValue.str "y")],
   [("d", JSValue.num 7), ("name", JSValue.str "p")],
   [("d", JSValue.num 7), ("name", JSValue.str "q")],
   [("d", JSValue.num 7), ("name", JSValue.str "r")]]

/-- Total comparison by timestamp that agrees with the date comparator on
records whose timestamps are valid — the well-behaved order used to reason
about `DateSortStrategy` away from `NaN`. -/
def dateKeyLe (column direction : String) (a b : Record) : Bool :=
  if direction = "asc" then
    decide ((dateKey a column).getD 0 ≤ (dateKey b column).getD 0)
  else
    decide ((dateKey b column).getD 0 ≤ (dateKey a column).getD 0)

/-- Records with valid (parsable) date values, for the stability
witness. -/
def stabWitnessRecords : List Record :=
  [[("d", JSValue.num 7), ("name", JSValue.str "p")],
   [("d", JSValue.num 5), ("name", JSValue.str "a")],
   [("d", JSValue.num 5), ("name", JSValue.str "y")]]

/-!
## Helper lemmas
-/

theorem passesFilters_eq_all (strategy : JSValue → String → Bool)
    (fs : List (String × String)) (item : Record) :
    passesFilters strategy fs item =
      fs.all (fun ft => strategy (Record.get item ft.1) ft.2) := by
  induction fs with
  | nil => rfl
  | cons ft rest ih =>
    obtain ⟨column, term⟩ := ft
    by_cases h : strategy (Record.get item column) term <;>
      simp [passesFilters, h, ih]

theorem updateData_not_found {k : String} {id : JSValue} {u : Record}
    (l : List Record) (h : ∀ r ∈ l, Record.get r k ≠ id) :
    updateData k id u l = (none, l) := by
  induction l with
  | nil => rfl
  | cons r rest ih =>
    have hr : ¬ Record.get r k = id := h r (List.mem_cons_self r rest)
    have ih' := ih (fun x hx => h x (List.mem_cons_of_mem r hx))
    simp [updateData, hr, ih']

theorem updateData_found (u : Record) {k : String} {id : JSValue} {r : Record}
    (hr : Record.get r k = id) (a b : List Record)
    (h : ∀ x ∈ a, Record.get x k ≠ id) :
    updateData k id u (a ++ r :: b) =
      (some (Record.spread r u), a ++ Record.spread r u :: b) := by
  induction a with
  | nil => simp [updateData, hr]
  | cons x a ih =>
    have hx : ¬ Record.get x k = id := h x (List.mem_cons_self x a)
    have ih' := ih (fun y hy => h y (List.mem_cons_of_mem x hy))
    simp [updateData, hx, ih']

theorem deleteData_not_found {k : String} {id : JSValue}
    (l : List Record) (h : ∀ r ∈ l, Record.get r k ≠ id) :
    deleteData k id l = (none, l) := by
  induction l with
  | nil => rfl
  | cons r rest ih =>
    have hr : ¬ Record.get r k = id := h r (List.mem_cons_self r rest)
    have ih' := ih (fun x hx => h x (List.mem_cons_of_mem r hx))
    simp [deleteData, hr, ih']

theorem deleteData_found {k : String} {id : JSValue} {r : Record}
    (hr : Record.get r k = id) (a b : List Record)
    (h : ∀ x ∈ a, Record.get x k ≠ id) :
    deleteData k id (a ++ r :: b) = (some r, a ++ b) := by
  induction a with
  | nil => simp [deleteData, hr]
  | cons x a ih =>
    have hx : ¬ Record.get x k = id := h x (List.mem_cons_self x a)
    have ih' := ih (fun y hy => h y (List.mem_cons_of_mem x hy))
    simp [deleteData, hx, ih']

theorem deleteData_snd_sublist (k : String) (id : JSValue) (l : List Record) :
    List.Sublist (deleteData k id l).2 l := by
  induction l with
  | nil => exact List.Sublist.refl []
  | cons r rest ih =>
    by_cases hr : Record.get r k = id
    · simp [deleteData, hr]
    · simpa [deleteData, hr] using ih.cons₂ r

theorem find?_decomp {α : Type} {p : α → Bool} (l : List α) {r : α}
    (h : l.find? p = some r) :
    ∃ a b, l = a ++ r :: b ∧ (∀ x ∈ a, p x = false) := by
  induction l with
  | nil => simp at h
  | cons x l ih =>
    by_cases hx : p x
    · rw [List.find?_cons_of_pos l hx] at h
      cases h
      exact ⟨[], l, rfl, by simp⟩
    · rw [List.find?_cons_of_neg l hx] at h
      obtain ⟨a, b, rfl, ha⟩ := ih h
      refine ⟨x :: a, b, rfl, ?_⟩
      intro y hy
      rcases List.mem_cons.mp hy with rfl | hy
      · exact Bool.of_not_eq_true hx
      · exact ha y hy

theorem find?_append_left_none {α : Type} {p : α → Bool}
    (a : List α) (h : ∀ x ∈ a, p x = false) (l : List α) :
    (a ++ l).find? p = l.find? p := by
  induction a with
  | nil => rfl
  | cons x a ih =>
    have hx : ¬ p x = true := by simp [h x (List.mem_cons_self x a)]
    rw [List.cons_append, List.find?_cons_of_neg _ hx]
    exact ih (fun y hy => h y (List.mem_cons_of_mem x hy))

theorem recordEquiv_refl (r : Record) : RecordEquiv r r := fun _ => rfl

theorem storeEquiv_refl (s : VendorDataStore) : StoreEquiv s s := by
  refine ⟨rfl, fun id => ?_⟩
  cases h : s.getVendor id
  · simp [OptionRecordEquiv]
  · simpa [OptionRecordEquiv] using recordEquiv_refl _

theorem get_cons_of_ne (p : String × JSValue) (u : Record) (f : String)
    (hp : p.1 ≠ f) : Record.get (p :: u) f = Record.get u f := by
  unfold Record.get
  rw [List.find?_cons_of_neg _ (by simp [hp])]

theorem get_append (u r : Record) (f : String) :
    Record.get (u ++ r) f =
      if f ∈ Record.fields u then Record.get u f else Record.get r f := by
  induction u with
  | nil => simp [Record.fields, Record.get]
  | cons p u ih =>
    by_cases hp : p.1 = f
    · simp [Record.get, Record.fields, hp]
    · have hne : f ≠ p.1 := fun hf => hp hf.symm
      rw [List.cons_append, get_cons_of_ne _ _ _ hp, ih, get_cons_of_ne _ _ _ hp]
      exact if_congr (by simp [Record.fields, hne]) rfl rfl

theorem get_spread (r u : Record) (f : String) :
    Record.get (Record.spread r u) f =
      if f ∈ Record.fields u then Record.get u f else Record.get r f :=
  get_append u r f

theorem forall₂_recordEquiv_refl (l : List Record) : List.Forall₂ RecordEquiv l l := by
  induction l with
  | nil => exact List.Forall₂.nil
  | cons x l ih => exact List.Forall₂.cons (recordEquiv_refl x) ih

theorem forall₂_recordEquiv_append {a₁ a₂ b₁ b₂ : List Record}
    (h₁ : List.Forall₂ RecordEquiv a₁ a₂) (h₂ : List.Forall₂ RecordEquiv b₁ b₂) :
    List.Forall₂ RecordEquiv (a₁ ++ b₁) (a₂ ++ b₂) := by
  induction h₁ with
  | nil => simpa using h₂
  | cons h t ih => exact List.Forall₂.cons h ih

theorem optionRecordEquiv_find? {l₁ l₂ : List Record}
    (hf : List.Forall₂ RecordEquiv l₁ l₂) (k : String) (id : JSValue) :
    OptionRecordEquiv (l₁.find? (fun v => decide (Record.get v k = id)))
      (l₂.find? (fun v => decide (Record.get v k = id))) := by
  induction hf with
  | nil => exact trivial
  | cons hab hrest ih =>
    rename_i a b l₁ l₂
    have hkey : Record.get a k = Record.get b k := hab k
    by_cases h : Record.get a k = id
    · rw [List.find?_cons_of_pos _ (by simp [h]),
        List.find?_cons_of_pos _ (by simp [hkey ▸ h])]
      exact hab
    · rw [List.find?_cons_of_neg _ (by simp [h]),
        List.find?_cons_of_neg _ (by simp [← hkey, h])]
      exact ih

theorem storeEquiv_of_forall₂ (s₁ s₂ : VendorDataStore)
    (hpk : s₁.primaryKey = s₂.primaryKey)
    (h : List.Forall₂ RecordEquiv s₁.data s₂.data) : StoreEquiv s₁ s₂ := by
  refine ⟨hpk, fun id => ?_⟩
  unfold VendorDataStore.getVendor
  rw [hpk]
  exact optionRecordEquiv_find? h _ id

theorem find?_delete_readd {k : String} {id : JSValue} (a b : List Record) (r : Record)
    (hr : Record.get r k = id)
    (hb : ∀ y ∈ b, Record.get y k ≠ id) (id₂ : JSValue) :
    OptionRecordEquiv
      (((a ++ b) ++ [r]).find? (fun v => decide (Record.get v k = id₂)))
      ((a ++ r :: b).find? (fun v => decide (Record.get v k = id₂))) := by
  rw [List.find?_append, List.find?_append, List.find?_append]
  cases hfa : a.find? (fun v => decide (Record.get v k = id₂)) with
  | some x => simp [OptionRecordEquiv]; exact recordEquiv_refl x
  | none =>
    simp only [Option.none_or]
    by_cases hid : Record.get r k = id₂
    · have hid2 : id₂ = id := hid.symm.trans hr
      have hbnone : b.find? (fun v => decide (Record.get v k = id₂)) = none :=
        List.find?_eq_none.mpr (fun y hy => by simp [hid2, hb y hy])
      rw [hbnone, List.find?_cons_of_pos _ (by simp [hid])]
      simp only [Option.none_or]
      rw [List.find?_cons_of_pos _ (by simp [hid])]
      exact recordEquiv_refl r
    · have hrb : List.find? (fun v => decide (Record.get v k = id₂)) (r :: b) =
          List.find? (fun v => decide (Record.get v k = id₂)) b :=
        List.find?_cons_of_neg b (by simp [hid])
      rw [hrb]
      cases hfb : b.find? (fun v => decide (Record.get v k = id₂)) with
      | some y =>
        simp only [hfb, Option.or_some]
        exact recordEquiv_refl y
      | none => simp [hfb, List.find?_cons_of_neg, hid, OptionRecordEquiv]

theorem uniqueKeys_append_fresh {k : String} {l : List Record} {v : Record}
    (hu : UniqueKeys k l) (hv : ∀ r ∈ l, Record.get r k ≠ Record.get v k) :
    UniqueKeys k (l ++ [v]) := by
  unfold UniqueKeys at hu ⊢
  rw [List.pairwise_append]
  refine ⟨hu, by simp, ?_⟩
  intro a ha b hb
  simp only [List.mem_singleton] at hb
  subst hb
  exact hv a ha

theorem updateData_mem {k : String} {id : JSValue} {u : Record} :
    ∀ {l : List Record} {x : Record}, x ∈ (updateData k id u l).2 →
      x ∈ l ∨ ∃ y ∈ l, Record.get y k = id ∧ x = Record.spread y u := by
  intro l
  induction l with
  | nil => intro x hx; simp [updateData] at hx
  | cons r rest ih =>
    intro x hx
    by_cases hr : Record.get r k = id
    · simp only [updateData, if_pos hr, List.mem_cons] at hx
      rcases hx with rfl | hx
      · exact Or.inr ⟨r, List.mem_cons_self r rest, hr, rfl⟩
      · exact Or.inl (List.mem_cons_of_mem r hx)
    · simp only [updateData, if_neg hr, List.mem_cons] at hx
      rcases hx with rfl | hx
      · exact Or.inl (List.mem_cons_self x rest)
      · rcases ih hx with h | ⟨y, hy, hky, rfl⟩
        · exact Or.inl (List.mem_cons_of_mem r h)
        · exact Or.inr ⟨y, List.mem_cons_of_mem r hy, hky, rfl⟩

theorem uniqueKeys_updateData {k : String} {id : JSValue} {u : Record} :
    ∀ (l : List Record), UniqueKeys k l →
      (k ∉ Record.fields u ∨ Record.get u k = id ∨
        ∀ r ∈ l, Record.get r k ≠ Record.get u k) →
      UniqueKeys k (updateData k id u l).2
  | [], _, _ => by simp [updateData, UniqueKeys]
  | r :: rest, hu, hsafe => by
    have hu' := List.pairwise_cons.mp hu
    by_cases hr : Record.get r k = id
    · simp only [updateData, if_pos hr]
      refine List.Pairwise.cons ?_ hu'.2
      intro y hy
      rw [get_spread]
      by_cases hm : k ∈ Record.fields u
      · rw [if_pos hm]
        rcases hsafe with hno | hid | hfresh
        · exact absurd hm hno
        · rw [hid, ← hr]
          exact hu'.1 y hy
        · exact fun hcon => (hfresh y (List.mem_cons_of_mem r hy)) hcon.symm
      · rw [if_neg hm]
        exact hu'.1 y hy
    · simp only [updateData, if_neg hr]
      have hsafe' : k ∉ Record.fields u ∨ Record.get u k = id ∨
          ∀ x ∈ rest, Record.get x k ≠ Record.get u k := by
        rcases hsafe with h | h | h
        · exact Or.inl h
        · exact Or.inr (Or.inl h)
        · exact Or.inr (Or.inr (fun x hx => h x (List.mem_cons_of_mem r hx)))
      refine List.Pairwise.cons ?_ (uniqueKeys_updateData rest hu'.2 hsafe')
      intro x hx
      rcases updateData_mem hx with hmem | ⟨y, hy, hky, rfl⟩
      · exact hu'.1 x hmem
      · rw [get_spread]
        by_cases hm : k ∈ Record.fields u
        · rw [if_pos hm]
          rcases hsafe with hno | hid | hfresh
          · exact absurd hm hno
          · rw [hid]
            exact hr
          · exact hfresh r (List.mem_cons_self r rest)
        · rw [if_neg hm, hky]
          exact hr

theorem mergeFuel_eq_merge {α : Type} (le : α → α → Bool) :
    ∀ (f : Nat) (xs ys : List α), xs.length + ys.length ≤ f →
      mergeFuel le f xs ys = List.merge xs ys le
  | 0, xs, ys, h => by
    have hx : xs = [] := List.eq_nil_of_length_eq_zero (by omega)
    have hy : ys = [] := List.eq_nil_of_length_eq_zero (by omega)
    subst hx
    subst hy
    simp [mergeFuel]
  | _ + 1, [], ys, _ => by simp [mergeFuel]
  | _ + 1, x :: xs, [], _ => by simp [mergeFuel]
  | f + 1, x :: xs, y :: ys, h => by
    rw [List.cons_merge_cons]
    by_cases hxy : le x y
    · simp only [mergeFuel, if_pos hxy]
      rw [mergeFuel_eq_merge le f xs (y :: ys) (by simp at h ⊢; omega)]
    · simp only [mergeFuel, if_neg hxy]
      rw [mergeFuel_eq_merge le f (x :: xs) ys (by simp at h ⊢; omega)]

theorem mergeSortFuel_eq_mergeSort {α : Type} (le : α → α → Bool) :
    ∀ (f : Nat) (l : List α), l.length ≤ f →
      mergeSortFuel le f l = l.mergeSort le
  | 0, l, h => by
    have : l = [] := List.eq_nil_of_length_eq_zero (by omega)
    subst this
    simp [mergeSortFuel]
  | _ + 1, [], _ => by simp [mergeSortFuel]
  | _ + 1, [a], _ => by simp [mergeSortFuel]
  | f + 1, a :: b :: xs, h => by
    have e1 : (List.splitInTwo ⟨a :: b :: xs, rfl⟩).1.1.length = (xs.length + 2 + 1) / 2 :=
      (List.splitInTwo ⟨a :: b :: xs, rfl⟩).1.2
    have e2 : (List.splitInTwo ⟨a :: b :: xs, rfl⟩).2.1.length = (xs.length + 2) / 2 :=
      (List.splitInTwo ⟨a :: b :: xs, rfl⟩).2.2
    have hlen : xs.length + 2 ≤ f + 1 := by simpa using h
    rw [List.mergeSort]
    simp only [mergeSortFuel]
    rw [mergeSortFuel_eq_mergeSort le f _ (by rw [e1]; omega),
      mergeSortFuel_eq_mergeSort le f _ (by rw [e2]; omega),
      mergeFuel_eq_merge le _ _ _ le_rfl]

theorem jsSort_eq_mergeSort {α : Type} (cmp : α → α → Option Int) (l : List α) :
    jsSort cmp l = l.mergeSort (fun a b => jsCmpLe (cmp a b)) :=
  mergeSortFuel_eq_mergeSort _ l.length l le_rfl

theorem merge_congr {α : Type} {le le' : α → α → Bool} :
    ∀ (xs ys : List α), (∀ a ∈ xs, ∀ b ∈ ys, le a b = le' a b) →
      List.merge xs ys le = List.merge xs ys le'
  | [], ys, _ => by simp
  | _ :: _, [], _ => by simp
  | x :: xs, y :: ys, h => by
    rw [List.cons_merge_cons, List.cons_merge_cons,
      h x (List.mem_cons_self x xs) y (List.mem_cons_self y ys)]
    by_cases hxy : le' x y
    · rw [if_pos hxy, if_pos hxy,
        merge_congr xs (y :: ys) (fun p hp q hq => h p (List.mem_cons_of_mem x hp) q hq)]
    · rw [if_neg hxy, if_neg hxy,
        merge_congr (x :: xs) ys (fun p hp q hq => h p hp q (List.mem_cons_of_mem y hq))]
termination_by xs ys => xs.length + ys.length

theorem mergeSort_congr {α : Type} {le le' : α → α → Bool} :
    ∀ (l : List α), (∀ a ∈ l, ∀ b ∈ l, le a b = le' a b) →
      l.mergeSort le = l.mergeSort le'
  | [], _ => by simp
  | [a], _ => by simp
  | a :: b :: xs, h => by
    have t1 : (List.splitInTwo ⟨a :: b :: xs, rfl⟩).1.1.length < xs.length + 1 + 1 := by
      simp [List.splitInTwo_fst]
      omega
    have t2 : (List.splitInTwo ⟨a :: b :: xs, rfl⟩).2.1.length < xs.length + 1 + 1 := by
      simp [List.splitInTwo_snd]
      omega
    have mem₁ : ∀ p ∈ (List.splitInTwo ⟨a :: b :: xs, rfl⟩).1.1, p ∈ a :: b :: xs := by
      intro p hp
      rw [List.splitInTwo_fst] at hp
      exact List.take_subset _ _ hp
    have mem₂ : ∀ p ∈ (List.splitInTwo ⟨a :: b :: xs, rfl⟩).2.1, p ∈ a :: b :: xs := by
      intro p hp
      rw [List.splitInTwo_snd] at hp
      exact List.drop_subset _ _ hp
    rw [List.mergeSort, List.mergeSort]
    rw [mergeSort_congr (List.splitInTwo ⟨a :: b :: xs, rfl⟩).1.1
        (fun p hp q hq => h p (mem₁ p hp) q (mem₁ q hq)),
      mergeSort_congr (List.splitInTwo ⟨a :: b :: xs, rfl⟩).2.1
        (fun p hp q hq => h p (mem₂ p hp) q (mem₂ q hq))]
    apply merge_congr
    intro p hp q hq
    exact h p (mem₁ p (List.mem_mergeSort.mp hp)) q (mem₂ q (List.mem_mergeSort.mp hq))
termination_by l => l.length

theorem filter_mergeSort_of_key {α : Type} (le : α → α → Bool)
    (htrans : ∀ a b c, le a b → le b c → le a c)
    (htotal : ∀ a b, le a b || le b a)
    (p : α → Bool) (hp : ∀ a b, p a → p b → le a b)
    (l : List α) : (l.mergeSort le).filter p = l.filter p := by
  have hpair : (l.filter p).Pairwise (fun a b => le a b) :=
    List.pairwise_of_forall_mem_list
      (fun a ha b hb => hp a b (List.of_mem_filter ha) (List.of_mem_filter hb))
  have hsub : List.Sublist (l.filter p) (l.mergeSort le) :=
    List.sublist_mergeSort htrans htotal hpair (List.filter_sublist l)
  have hsub2 := hsub.filter p
  have hff : (l.filter p).filter p = l.filter p := by
    rw [List.filter_filter]
    exact List.filter_congr (fun x _ => Bool.and_self (p x))
  rw [hff] at hsub2
  have hperm : List.Perm ((l.mergeSort le).filter p) (l.filter p) :=
    (List.mergeSort_perm l le).filter p
  exact (hsub2.eq_of_length hperm.length_eq.symm).symm

theorem jsCmpLe_applyDirection_some (direction : String) (c : Int) :
    jsCmpLe (applyDirection direction (some c)) =
      if direction = "asc" then decide (c ≤ 0) else decide (0 ≤ c) := by
  unfold applyDirection jsCmpLe
  by_cases h : direction = "asc" <;> simp [h]

theorem jsLocaleCompare_le_zero (a b : String) :
    jsLocaleCompare a b ≤ 0 ↔ a.data ≤ b.data := by
  unfold jsLocaleCompare
  by_cases h1 : a.data < b.data
  · simp [h1, le_of_lt h1]
  · by_cases h2 : a = b
    · simp [h1, h2]
    · have hne : a.data ≠ b.data := fun hd => h2 (String.ext hd)
      have hlt : b.data < a.data := (lt_or_gt_of_ne hne).resolve_left h1
      simp [h1, h2]
      exact hlt

theorem jsLocaleCompare_nonneg (a b : String) :
    0 ≤ jsLocaleCompare a b ↔ b.data ≤ a.data := by
  unfold jsLocaleCompare
  by_cases h1 : a.data < b.data
  · simp [h1]
  · by_cases h2 : a = b
    · simp [h1, h2]
    · simp [h1, h2]
      exact le_of_not_lt h1

/-!
## Claim theorems
-/

/-- C1 (amended): on a store with pairwise-distinct identity keys,
execute-then-undo restores the store up to identity-key set and field
values, provided an added vendor's key is fresh and an update neither
introduces new fields on its target nor changes the identity-key value;
delete needs no extra condition. -/
theorem command_execThenUndo_storeEquiv (c : Command) (st : VendorDataStore)
    (hu : UniqueKeys st.primaryKey st.data) (hs : SafeCommand c st) :
    StoreEquiv (Command.execThenUndo c st) st := by
  cases c with
  | add v =>
    have hs' : ∀ r ∈ st.data, Record.get r st.primaryKey ≠ Record.get v st.primaryKey := hs
    have h1 : deleteData st.primaryKey (Record.get v st.primaryKey) (st.data ++ [v]) =
        (some v, st.data ++ []) :=
      deleteData_found rfl st.data [] hs'
    simp only [Command.execThenUndo, Command.execute, Command.undo,
      VendorDataStore.addVendor, VendorDataStore.deleteVendor, h1]
    simpa using storeEquiv_refl st
  | update id u =>
    cases hv : st.getVendor id with
    | none =>
      have hnone : ∀ r ∈ st.data, Record.get r st.primaryKey ≠ id := by
        intro r hr
        simpa using List.find?_eq_none.mp hv r hr
      simp only [Command.execThenUndo, Command.execute, Command.undo, hv,
        VendorDataStore.updateVendor, updateData_not_found st.data hnone]
      exact storeEquiv_refl st
    | some r =>
      obtain ⟨hsub, hpk⟩ := hs r hv
      obtain ⟨a, b, hdata, hafalse⟩ := find?_decomp st.data hv
      have ha : ∀ x ∈ a, Record.get x st.primaryKey ≠ id := by
        intro x hx
        simpa using hafalse x hx
      have hr : Record.get r st.primaryKey = id := by
        simpa using List.find?_some hv
      have hkey : Record.get (Record.spread r u) st.primaryKey = id := by
        rw [get_spread]
        by_cases hm : st.primaryKey ∈ Record.fields u
        · simpa [hm] using hpk hm
        · simpa [hm] using hr
      have e1 := updateData_found u hr a b ha
      have e2 := updateData_found r hkey a b ha
      have hund : Command.execThenUndo (.update id u) st =
          { st with data := a ++ Record.spread (Record.spread r u) r :: b } := by
        simp only [Command.execThenUndo, Command.execute, Command.undo, hv,
          VendorDataStore.updateVendor, hdata, e1, e2]
      rw [hund]
      refine storeEquiv_of_forall₂ _ _ rfl ?_
      show List.Forall₂ RecordEquiv (a ++ Record.spread (Record.spread r u) r :: b) st.data
      rw [hdata]
      refine forall₂_recordEquiv_append (forall₂_recordEquiv_refl a)
        (List.Forall₂.cons ?_ (forall₂_recordEquiv_refl b))
      intro f
      rw [get_spread, get_spread]
      by_cases hf : f ∈ Record.fields r
      · simp [hf]
      · have hfu : f ∉ Record.fields u := fun hc => hf (hsub f hc)
        simp [hf, hfu]
  | delete id =>
    cases hv : st.data.find? (fun v => decide (Record.get v st.primaryKey = id)) with
    | none =>
      have hnone : ∀ r ∈ st.data, Record.get r st.primaryKey ≠ id := by
        intro r hr
        simpa using List.find?_eq_none.mp hv r hr
      simp only [Command.execThenUndo, Command.execute, Command.undo,
        VendorDataStore.deleteVendor, deleteData_not_found st.data hnone]
      exact storeEquiv_refl st
    | some r =>
      obtain ⟨a, b, hdata, hafalse⟩ := find?_decomp st.data hv
      have ha : ∀ x ∈ a, Record.get x st.primaryKey ≠ id := by
        intro x hx
        simpa using hafalse x hx
      have hr : Record.get r st.primaryKey = id := by
        simpa using List.find?_some hv
      have hb : ∀ y ∈ b, Record.get y st.primaryKey ≠ id := by
        rw [hdata] at hu
        have hpair := (List.pairwise_append.mp hu).2.1
        have hrb := (List.pairwise_cons.mp hpair).1
        intro y hy hcontra
        exact (hrb y hy) (hr.trans hcontra.symm)
      have e1 := deleteData_found hr a b ha
      have hund : Command.execThenUndo (.delete id) st =
          { st with data := (a ++ b) ++ [r] } := by
        simp only [Command.execThenUndo, Command.execute, Command.undo, hdata,
          VendorDataStore.deleteVendor, e1, VendorDataStore.addVendor]
      rw [hund]
      refine ⟨rfl, fun id₂ => ?_⟩
      show OptionRecordEquiv
        (((a ++ b) ++ [r]).find? (fun v => decide (Record.get v st.primaryKey = id₂)))
        (st.data.find? (fun v => decide (Record.get v st.primaryKey = id₂)))
      rw [hdata]
      exact find?_delete_readd a b r hr hb id₂

/-- C1 counterexample: adding a vendor whose identity key already exists
and undoing deletes the original record instead, so the store ends with
the new record's field values — the claimed unconditional round-trip
fails. -/
theorem addVendorCommand_roundTrip_cex :
    ¬ StoreEquiv
        (Command.execThenUndo (.add [("id", JSValue.num 1), ("name", JSValue.str "B")])
          ⟨[[("id", JSValue.num 1), ("name", JSValue.str "A")]], "id"⟩)
        ⟨[[("id", JSValue.num 1), ("name", JSValue.str "A")]], "id"⟩ := by
  intro h
  have h2 := h.2 (JSValue.num 1)
  have e1 : (Command.execThenUndo (.add [("id", JSValue.num 1), ("name", JSValue.str "B")])
        ⟨[[("id", JSValue.num 1), ("name", JSValue.str "A")]], "id"⟩).getVendor (JSValue.num 1) =
      some [("id", JSValue.num 1), ("name", JSValue.str "B")] := by decide
  have e2 : (⟨[[("id", JSValue.num 1), ("name", JSValue.str "A")]], "id"⟩ :
        VendorDataStore).getVendor (JSValue.num 1) =
      some [("id", JSValue.num 1), ("name", JSValue.str "A")] := by decide
  rw [e1, e2] at h2
  have h3 : RecordEquiv [("id", JSValue.num 1), ("name", JSValue.str "B")]
      [("id", JSValue.num 1), ("name", JSValue.str "A")] := h2
  have := h3 "name"
  simp [Record.get] at this

/-- C1 witness: deleting id 2 from the unique-key scenario store and
undoing restores it up to identity-key set and field values. -/
theorem command_execThenUndo_storeEquiv_witness :
    UniqueKeys scenarioStore.primaryKey scenarioStore.data ∧
    StoreEquiv (Command.execThenUndo (.delete (.num 2)) scenarioStore) scenarioStore := by
  constructor
  · decide
  · exact command_execThenUndo_storeEquiv (.delete (.num 2)) scenarioStore (by decide) trivial

/-- C4 (amended): starting from a store with unique keys, every trace of
operations in which `setData` loads unique keys, `addVendor` inserts a
fresh key, and `updateVendor` leaves the identity key untouched, equal to
the looked-up id, or fresh, preserves key uniqueness. -/
theorem runOps_uniqueKeys_of_safe :
    ∀ (ops : List StoreOp) (st : VendorDataStore),
      UniqueKeys st.primaryKey st.data → SafeTrace st ops →
      UniqueKeys (st.runOps ops).primaryKey (st.runOps ops).data
  | [], _, hu, _ => hu
  | op :: rest, st, hu, hsafe => by
    obtain ⟨hop, hrest⟩ := hsafe
    have hnext : UniqueKeys (st.applyOp op).primaryKey (st.applyOp op).data := by
      cases op with
      | setData rs => exact hop
      | addVendor v => exact uniqueKeys_append_fresh hu hop
      | updateVendor id u =>
        cases h : (updateData st.primaryKey id u st.data).1 with
        | none => simpa [VendorDataStore.applyOp, VendorDataStore.updateVendor, h] using hu
        | some m =>
          have hupd := uniqueKeys_updateData st.data hu hop
          simpa [VendorDataStore.applyOp, VendorDataStore.updateVendor, h] using hupd
      | deleteVendor id =>
        cases h : (deleteData st.primaryKey id st.data).1 with
        | none => simpa [VendorDataStore.applyOp, VendorDataStore.deleteVendor, h] using hu
        | some d =>
          have hdel := List.Pairwise.sublist (deleteData_snd_sublist st.primaryKey id st.data) hu
          simpa [VendorDataStore.applyOp, VendorDataStore.deleteVendor, h] using hdel
    have hrec := runOps_uniqueKeys_of_safe rest (st.applyOp op) hnext hrest
    simpa [VendorDataStore.runOps] using hrec

/-- C4 counterexample: `addVendor` never checks the identity key, so two
adds with the same id — a trace whose `setData` hypothesis holds vacuously
— reach a store with a duplicated key. -/
theorem uniqueKeys_reachable_cex :
    (∀ rs : List Record,
      StoreOp.setData rs ∈
          ([.addVendor [("id", JSValue.num 1), ("name", JSValue.str "A")],
            .addVendor [("id", JSValue.num 1), ("name", JSValue.str "B")]] : List StoreOp) →
        UniqueKeys "id" rs) ∧
    ¬ UniqueKeys
        (VendorDataStore.runOps .init
          [.addVendor [("id", JSValue.num 1), ("name", JSValue.str "A")],
           .addVendor [("id", JSValue.num 1), ("name", JSValue.str "B")]]).primaryKey
        (VendorDataStore.runOps .init
          [.addVendor [("id", JSValue.num 1), ("name", JSValue.str "A")],
           .addVendor [("id", JSValue.num 1), ("name", JSValue.str "B")]]).data := by
  constructor
  · intro rs h
    simp at h
  · decide

/-- C4 witness: a safe trace (load two records, add a fresh one, update a
name, delete one) keeps the identity keys unique. -/
theorem runOps_uniqueKeys_of_safe_witness :
    UniqueKeys VendorDataStore.init.primaryKey VendorDataStore.init.data ∧
    SafeTrace .init
      [.setData [recCharlie, recAlice], .addVendor recBob,
       .updateVendor (.num 2) [("name", JSValue.str "Alicia")], .deleteVendor (.num 1)] ∧
    UniqueKeys
      (VendorDataStore.runOps .init
        [.setData [recCharlie, recAlice], .addVendor recBob,
         .updateVendor (.num 2) [("name", JSValue.str "Alicia")],
         .deleteVendor (.num 1)]).primaryKey
      (VendorDataStore.runOps .init
        [.setData [recCharlie, recAlice], .addVendor recBob,
         .updateVendor (.num 2) [("name", JSValue.str "Alicia")],
         .deleteVendor (.num 1)]).data := by
  refine ⟨by decide, by decide, ?_⟩
  exact runOps_uniqueKeys_of_safe _ .init (by decide) (by decide)

/-- C9 (amended): the alphabetic and numeric sorters are stable for every
input and direction — records with equal sort keys keep their relative
input order; the chronological sorter is stable on inputs all of whose
field values have valid timestamps.  (With `NaN` timestamps present its
comparator is inconsistent and stability can fail; see the
counterexample.) -/
theorem sortStrategies_stable (data : List Record) (column direction : String) :
    (∀ kv : String,
      (AlphabeticSortStrategy.sort data column direction).filter
          (fun r => decide (alphaKey r column = kv)) =
        data.filter (fun r => decide (alphaKey r column = kv))) ∧
    (∀ kv : Int,
      (NumericSortStrategy.sort data column direction).filter
          (fun r => decide (numKey r column = kv)) =
        data.filter (fun r => decide (numKey r column = kv))) ∧
    ((∀ r ∈ data, (dateKey r column).isSome = true) →
      ∀ kv : Int,
        (DateSortStrategy.sort data column direction).filter
            (fun r => decide (dateKey r column = some kv)) =
          data.filter (fun r => decide (dateKey r column = some kv))) := by
  refine ⟨?_, ?_, ?_⟩
  · intro kv
    unfold AlphabeticSortStrategy.sort
    rw [jsSort_eq_mergeSort]
    apply filter_mergeSort_of_key
    · intro a b c hab hbc
      by_cases hd : direction = "asc" <;>
        simp only [alphaCompare, jsCmpLe_applyDirection_some, hd, if_true, if_false,
          decide_eq_true_eq, jsLocaleCompare_le_zero, jsLocaleCompare_nonneg,
          ite_true, ite_false] at hab hbc ⊢
      · exact le_trans hab hbc
      · exact le_trans hbc hab
    · intro a b
      by_cases hd : direction = "asc" <;>
        simp only [alphaCompare, jsCmpLe_applyDirection_some, hd, if_true, if_false,
          Bool.or_eq_true, decide_eq_true_eq, jsLocaleCompare_le_zero,
          jsLocaleCompare_nonneg, ite_true, ite_false]
      · exact le_total _ _
      · exact le_total _ _
    · intro a b ha hb
      simp only [decide_eq_true_eq] at ha hb
      by_cases hd : direction = "asc" <;>
        simp [alphaCompare, jsCmpLe_applyDirection_some, hd, ha, hb,
          jsLocaleCompare_le_zero, jsLocaleCompare_nonneg]
  · intro kv
    unfold NumericSortStrategy.sort
    rw [jsSort_eq_mergeSort]
    apply filter_mergeSort_of_key
    · intro a b c hab hbc
      by_cases hd : direction = "asc" <;>
        simp only [numCompare, jsCmpLe_applyDirection_some, hd, if_true, if_false,
          decide_eq_true_eq, sub_nonpos, sub_nonneg, ite_true, ite_false] at hab hbc ⊢
      · exact le_trans hab hbc
      · exact le_trans hbc hab
    · intro a b
      by_cases hd : direction = "asc" <;>
        simp only [numCompare, jsCmpLe_applyDirection_some, hd, if_true, if_false,
          Bool.or_eq_true, decide_eq_true_eq, sub_nonpos, sub_nonneg, ite_true, ite_false]
      · exact le_total _ _
      · exact le_total _ _
    · intro a b ha hb
      simp only [decide_eq_true_eq] at ha hb
      by_cases hd : direction = "asc" <;>
        simp [numCompare, jsCmpLe_applyDirection_some, hd, ha, hb]
  · intro hval kv
    unfold DateSortStrategy.sort
    rw [jsSort_eq_mergeSort]
    have hagree : ∀ a ∈ data, ∀ b ∈ data,
        jsCmpLe (dateCompare column direction a b) = dateKeyLe column direction a b := by
      intro a ha b hb
      obtain ⟨x, hx⟩ := Option.isSome_iff_exists.mp (hval a ha)
      obtain ⟨y, hy⟩ := Option.isSome_iff_exists.mp (hval b hb)
      by_cases hd : direction = "asc" <;>
        simp [dateCompare, dateKeyLe, hx, hy, jsCmpLe_applyDirection_some, hd,
          sub_nonpos, sub_nonneg]
    rw [mergeSort_congr data hagree]
    apply filter_mergeSort_of_key
    · intro a b c hab hbc
      by_cases hd : direction = "asc" <;>
        simp only [dateKeyLe, hd, if_true, if_false, decide_eq_true_eq,
          ite_true, ite_false] at hab hbc ⊢
      · exact le_trans hab hbc
      · exact le_trans hbc hab
    · intro a b
      by_cases hd : direction = "asc" <;>
        simp only [dateKeyLe, hd, if_true, if_false, Bool.or_eq_true,
          decide_eq_true_eq, ite_true, ite_false]
      · exact le_total _ _
      · exact le_total _ _
    · intro a b ha hb
      simp only [decide_eq_true_eq] at ha hb
      by_cases hd : direction = "asc" <;> simp [dateKeyLe, hd, ha, hb]

/-- C9 counterexample: with records whose date values are unparsable
(`NaN` timestamps) the date comparator is inconsistent, and the two
records with timestamp 5 come out in the opposite of their input order. -/
theorem dateSort_stability_cex :
    (DateSortStrategy.sort stabCexRecords "d" "asc").filter
        (fun r => decide (dateKey r "d" = some 5)) ≠
      stabCexRecords.filter (fun r => decide (dateKey r "d" = some 5)) := by
  decide

/-- C9 witness: on records with valid timestamps, the date sorter keeps
the two timestamp-5 records in input order. -/
theorem sortStrategies_stable_witness :
    (∀ r ∈ stabWitnessRecords, (dateKey r "d").isSome = true) ∧
    (DateSortStrategy.sort stabWitnessRecords "d" "asc").filter
        (fun r => decide (dateKey r "d" = some 5)) =
      stabWitnessRecords.filter (fun r => decide (dateKey r "d" = some 5)) :=
  ⟨by decide, (sortStrategies_stable stabWitnessRecords "d" "asc").2.2 (by decide) 5⟩

/-- C6: after every `executeCommand` the redo stack is empty, and an
immediately following `redo()` is a no-op: it changes neither the store
nor either stack. -/
theorem executeCommand_clears_redo_and_redo_noop
    (h : CommandHistory) (c : Command) (st : VendorDataStore) :
    (h.executeCommand c st).1.redoStack = [] ∧
    CommandHistory.redoLast (h.executeCommand c st).1 (h.executeCommand c st).2 =
      ((h.executeCommand c st).1, (h.executeCommand c st).2) :=
  ⟨rfl, rfl⟩

/-- C8: on an identity key absent from the store, `updateVendor` and
`deleteVendor` return null, leave the store unchanged and fire no
notification. -/
theorem update_delete_missing_noop (st : VendorDataStore) (id : JSValue) (u : Record)
    (h : ∀ r ∈ st.data, Record.get r st.primaryKey ≠ id) :
    st.updateVendor id u = (st, none, []) ∧ st.deleteVendor id = (st, none, []) := by
  constructor
  · simp [VendorDataStore.updateVendor, updateData_not_found st.data h]
  · simp [VendorDataStore.deleteVendor, deleteData_not_found st.data h]

/-- C8 witness: `update(99, {...})` and `delete(99)` on the empty store. -/
theorem update_delete_missing_noop_witness :
    VendorDataStore.updateVendor .init (.num 99) [("name", JSValue.str "X")] =
      (.init, none, []) ∧
    VendorDataStore.deleteVendor .init (.num 99) = (.init, none, []) :=
  update_delete_missing_noop .init (.num 99) [("name", JSValue.str "X")]
    (by intro r hr; simp [VendorDataStore.init] at hr)

/-- C2: with no active sort column, the derived view is exactly the raw
data filtered by the conjunction of all active filters under the active
search strategy, in the original relative order. -/
theorem applyFiltersAndSort_noSort_eq_filter (st : VendorAppState)
    (h : st.sortColumn = none) :
    st.applyFiltersAndSort.filteredData =
      st.data.filter
        (fun r => st.searchFilters.all (fun ft => st.searchStrategy (Record.get r ft.1) ft.2)) := by
  unfold VendorAppState.applyFiltersAndSort
  rw [h]
  exact List.filter_congr (fun r _ => passesFilters_eq_all _ _ _)

/-- C3 (amended): the view's `notify` invokes every observer in
subscription order, catching (and logging) each observer exception; the
store's `notifyObservers` returns normally only when no observer throws,
and otherwise propagates the first thrown exception. -/
theorem notify_delivery_spec {π : Type} (obs : List (Observer π)) (event : String)
    (payload : π) :
    notifyView obs event payload = obs.map (fun o => errOf (o event payload)) ∧
    notifyStoreObservers obs event payload =
      (match obs.findSome? (fun o => errOf (o event payload)) with
       | some m => Except.error m
       | none => Except.ok ()) := by
  constructor
  · induction obs with
    | nil => rfl
    | cons o rest ih => simp [notifyView, ih]
  · induction obs with
    | nil => rfl
    | cons o rest ih =>
      cases h : o event payload with
      | ok u => simp [notifyStoreObservers, h, ih, errOf]
      | error m => simp [notifyStoreObservers, h, errOf]

/-- C3 counterexample: with no try/catch in `notifyObservers`, a throwing
observer's exception propagates and delivery aborts (the claim said it is
caught and never unwinds). -/
theorem notifyObservers_propagates_cex :
    notifyStoreObservers
        ([fun _ _ => Except.error "boom", fun _ _ => Except.ok ()] : List (Observer Int))
        "vendorAdded" 0 = Except.error "boom" ∧
    notifyStoreObservers
        ([fun _ _ => Except.error "boom", fun _ _ => Except.ok ()] : List (Observer Int))
        "vendorAdded" 0 ≠ Except.ok () :=
  ⟨rfl, fun h => Except.noConfusion h⟩

/-- C5 counterexample: a truthy field value that is unparsable as a date
(here the string `"foo"`) yields a `NaN` timestamp, not epoch zero. -/
theorem dateKey_unparsable_cex :
    jsDateParse "foo" = none ∧
    dateKey [("d", JSValue.str "foo")] "d" = none ∧
    dateKey [("d", JSValue.str "foo")] "d" ≠ some 0 :=
  ⟨by decide, by decide, by decide⟩

/-- C5 (amended): the chronological sorter's key coercion maps an absent
or otherwise falsy field value to epoch zero, but a truthy string value
unparsable as a date to `NaN`, not epoch zero. -/
theorem dateKey_spec (r : Record) (column : String) :
    (JSValue.falsy (Record.get r column) = true → dateKey r column = some 0) ∧
    (∀ s, Record.get r column = JSValue.str s → JSValue.falsy (JSValue.str s) = false →
      jsDateParse s = none → dateKey r column = none) := by
  constructor
  · intro h
    simp [dateKey, jsOr, h, jsDateGetTime]
  · intro s hs hf hp
    simp [dateKey, jsOr, hs, hf, jsDateGetTime, hp]

/-- C7: selecting the current sort column toggles the direction, selecting
a new column resets it to ascending; on an initially-unsorted view two
successive selections of a column yield the view sorted ascending, then
descending, by the active sort strategy on that column. -/
theorem setSortColumn_toggle_spec (st : VendorAppState) (column : String) :
    ((st.sortColumn = some column →
        (st.setSortColumn column).sortColumn = st.sortColumn ∧
        ((st.sortDirection = "asc" → (st.setSortColumn column).sortDirection = "desc") ∧
         (st.sortDirection = "desc" → (st.setSortColumn column).sortDirection = "asc"))) ∧
     (st.sortColumn ≠ some column →
        (st.setSortColumn column).sortColumn = some column ∧
        (st.setSortColumn column).sortDirection = "asc")) ∧
    (st.sortColumn = none → column ≠ "" →
      ((st.setSortColumn column).sortDirection = "asc" ∧
       (st.setSortColumn column).filteredData =
         st.sortStrategy (st.data.filter (passesFilters st.searchStrategy st.searchFilters))
           column "asc" ∧
       ((st.setSortColumn column).setSortColumn column).sortDirection = "desc" ∧
       ((st.setSortColumn column).setSortColumn column).filteredData =
         st.sortStrategy (st.data.filter (passesFilters st.searchStrategy st.searchFilters))
           column "desc")) := by
  refine ⟨⟨?_, ?_⟩, ?_⟩
  · intro h
    refine ⟨by simp [VendorAppState.setSortColumn, h, VendorAppState.applyFiltersAndSort], ?_, ?_⟩
    · intro hd
      simp [VendorAppState.setSortColumn, h, hd, VendorAppState.applyFiltersAndSort]
    · intro hd
      simp [VendorAppState.setSortColumn, h, hd, VendorAppState.applyFiltersAndSort]
  · intro h
    constructor
    · simp [VendorAppState.setSortColumn, h, VendorAppState.applyFiltersAndSort]
    · simp [VendorAppState.setSortColumn, h, VendorAppState.applyFiltersAndSort]
  · intro h hc
    have hne : st.sortColumn ≠ some column := by simp [h]
    refine ⟨?_, ?_, ?_, ?_⟩ <;>
      simp [VendorAppState.setSortColumn, hne, h, hc, VendorAppState.applyFiltersAndSort]

/-- C10: undoing a `DeleteVendorCommand` re-adds the deleted record at the
end of the store's sequence: delete-then-undo turns `a ++ r :: b` into
`(a ++ b) ++ [r]`. -/
theorem deleteCommand_undo_appends (st : VendorDataStore) (id : JSValue)
    (a b : List Record) (r : Record)
    (hd : st.data = a ++ r :: b)
    (ha : ∀ x ∈ a, Record.get x st.primaryKey ≠ id)
    (hr : Record.get r st.primaryKey = id) :
    Command.execThenUndo (.delete id) st = { st with data := (a ++ b) ++ [r] } := by
  simp [Command.execThenUndo, Command.execute, Command.undo,
    VendorDataStore.deleteVendor, hd, deleteData_found hr a b ha,
    VendorDataStore.addVendor]

/-- C7 witness: two successive `setSortColumn('name')` calls on the
unsorted scenario view sort it ascending then descending. -/
theorem setSortColumn_toggle_spec_witness :
    scenarioState.sortColumn = none ∧ "name" ≠ "" ∧
    ((scenarioState.setSortColumn "name").sortDirection = "asc" ∧
     (scenarioState.setSortColumn "name").filteredData =
       scenarioState.sortStrategy
         (scenarioState.data.filter
           (passesFilters scenarioState.searchStrategy scenarioState.searchFilters))
         "name" "asc" ∧
     ((scenarioState.setSortColumn "name").setSortColumn "name").sortDirection = "desc" ∧
     ((scenarioState.setSortColumn "name").setSortColumn "name").filteredData =
       scenarioState.sortStrategy
         (scenarioState.data.filter
           (passesFilters scenarioState.searchStrategy scenarioState.searchFilters))
         "name" "desc") ∧
    (scenarioState.setSortColumn "name").filteredData = [recAlice, recBob, recCharlie] ∧
    ((scenarioState.setSortColumn "name").setSortColumn "name").filteredData =
      [recCharlie, recBob, recAlice] :=
  ⟨rfl, by decide,
   (setSortColumn_toggle_spec scenarioState "name").2 rfl (by decide),
   by decide, by decide⟩

/-- C2 witness: the `category = "a"` filter under the partial strategy
keeps exactly the two `"A"` records, in original order. -/
theorem applyFiltersAndSort_noSort_eq_filter_witness :
    filterState.sortColumn = none ∧
    filterState.applyFiltersAndSort.filteredData =
      [[("id", JSValue.num 1), ("name", JSValue.str "Test Vendor"), ("category", JSValue.str "A")],
       [("id", JSValue.num 3), ("name", JSValue.str "Test Company"), ("category", JSValue.str "A")]] :=
  ⟨rfl, (applyFiltersAndSort_noSort_eq_filter filterState rfl).trans (by decide)⟩

/-- C10 witness: deleting the middle record (id 2) and undoing appends it
at the end. -/
theorem deleteCommand_undo_appends_witness :
    scenarioStore.data = [recCharlie] ++ recAlice :: [recBob] ∧
    Command.execThenUndo (.delete (.num 2)) scenarioStore =
      { scenarioStore with data := ([recCharlie] ++ [recBob]) ++ [recAlice] } :=
  ⟨rfl,
   deleteCommand_undo_appends scenarioStore (.num 2) [recCharlie] [recBob] recAlice rfl
     (by decide) (by decide)⟩

/-- C5 witness: the empty string (falsy) coerces to epoch zero, `"foo"`
(truthy, unparsable) to `NaN`. -/
theorem dateKey_spec_witness :
    JSValue.falsy (Record.get [("d", JSValue.str "")] "d") = true ∧
    dateKey [("d", JSValue.str "")] "d" = some 0 ∧
    dateKey [("d", JSValue.str "foo")] "d" = none :=
  ⟨by decide, (dateKey_spec [("d", JSValue.str "")] "d").1 (by decide),
   (dateKey_spec [("d", JSValue.str "foo")] "d").2 "foo" (by decide) (by decide) (by decide)⟩

end VendorsCore
